import Mathlib

/-!
Verification of the SSZ Merkle-proof engine (`ethereum/ssz/ssz.go`) and the
circuit-function pipeline (`gnarkx/succinct/circuit.go`) of succinctx.

The circuit byte type `vars.Byte` is modelled as `Nat` (a constrained value in
`0..255`; the byte range itself is enforced by the external arithmetic-circuit
runtime and plays no role in the properties below).  A `Digest`
(`[32]vars.Byte`) is a length-32 vector of bytes.  The sha256 hash gadget is an
external collaborator and is modelled as an abstract function
`H : List Byte → Digest`; every statement is universally quantified over it.
-/

namespace SuccinctX

open Mathlib

/-- A circuit byte value (`vars.Byte`). -/
abbrev Byte := Nat

/-- A 32-byte digest (`[32]vars.Byte`). -/
abbrev Digest := Mathlib.Vector Byte 32

/-- The all-zero digest (32 zero bytes); also used as the out-of-range default
when reading from a digest list. -/
def zeroDigest : Digest := Mathlib.Vector.replicate 32 0

/-- Concatenation of two digests, as fed to the sha256 gadget
(`append(a[:], b[:]...)` on two `[32]vars.Byte` values). -/
def dcat (a b : Digest) : List Byte := a.toList ++ b.toList

/-- Go method `SimpleSerializeAPI.RestoreMerkleRoot` (ssz.go lines 64-79), for a
compile-time-constant gindex.  The Go loop

    hash := leaf
    for i := 0; i < len(proof); i++ {
      if gindex%2 == 1 { hash = Hash(proof[i] || hash) }
      else             { hash = Hash(hash || proof[i]) }
      gindex = gindex / 2
    }
    return hash

is rendered as a recursion over the proof list, the accumulator `hash`
and the current `gindex` being the recursion's arguments.  `gindex` is the
generalized index, an unsigned integer per the data model. -/
def RestoreMerkleRoot (H : List Byte → Digest) (leaf : Digest)
    (proof : List Digest) (gindex : Nat) : Digest :=
  match proof with
  | [] => leaf
  | p :: rest =>
      RestoreMerkleRoot H
        (if gindex % 2 = 1 then H (dcat p leaf) else H (dcat leaf p))
        rest (gindex / 2)

/-- The specification's formulation of the same traversal: level `i` inspects
bit `i` of the original gindex (least-significant first), `proof[i]` being the
sibling at that level.  Stated over an indexed fold to compare with the
divide-by-two loop of the source. -/
def restoreMerkleRootBits (H : List Byte → Digest) (leaf : Digest)
    (proof : List Digest) (gindex : Nat) : Digest :=
  (List.range proof.length).foldl
    (fun acc i =>
      if gindex.testBit i then H (dcat (proof.getD i zeroDigest) acc)
      else H (dcat acc (proof.getD i zeroDigest)))
    leaf

lemma restoreMerkleRootBits_nil (H : List Byte → Digest) (leaf : Digest)
    (g : Nat) : restoreMerkleRootBits H leaf [] g = leaf := rfl

lemma restoreMerkleRootBits_cons (H : List Byte → Digest) (leaf : Digest)
    (p : Digest) (rest : List Digest) (g : Nat) :
    restoreMerkleRootBits H leaf (p :: rest) g =
      restoreMerkleRootBits H
        (if g.testBit 0 then H (dcat p leaf) else H (dcat leaf p))
        rest (g / 2) := by
  unfold restoreMerkleRootBits
  simp only [List.length_cons, List.range_succ_eq_map, List.foldl_cons,
    List.foldl_map]
  congr 1
  funext acc i
  simp [Nat.testBit_div_two, Nat.succ_eq_add_one]

/-- The loop of the source equals the bit-indexed formulation of the spec. -/
lemma restoreMerkleRoot_eq_bits (H : List Byte → Digest) (leaf : Digest)
    (proof : List Digest) (g : Nat) :
    RestoreMerkleRoot H leaf proof g = restoreMerkleRootBits H leaf proof g := by
  induction proof generalizing leaf g with
  | nil => rfl
  | cons p rest ih =>
      rw [restoreMerkleRootBits_cons]
      unfold RestoreMerkleRoot
      rw [ih]
      congr 1
      simp [Nat.testBit_zero]

/-- C1: `RestoreMerkleRoot` traverses exactly `len(proof)` levels; at level `i`
the accumulator becomes `Hash(proof[i] || acc)` when the current gindex is odd
(equivalently, bit `i` of the original gindex is set) and
`Hash(acc || proof[i])` when it is even, the gindex being integer-divided by 2
after each level; in particular for `leaf` = 32 zero bytes,
`proof = [s0, s1]` and `gindex = 5` the result is
`Hash(Hash(s0 || leaf) || s1)`. -/
theorem restoreMerkleRoot_levels_and_example :
    (∀ (H : List Byte → Digest) (leaf : Digest) (proof : List Digest)
        (g : Nat),
      RestoreMerkleRoot H leaf proof g = restoreMerkleRootBits H leaf proof g)
    ∧
    (∀ (H : List Byte → Digest) (s0 s1 : Digest),
      RestoreMerkleRoot H zeroDigest [s0, s1] 5 =
        H (dcat (H (dcat s0 zeroDigest)) s1)) := by
  exact ⟨restoreMerkleRoot_eq_bits, fun H s0 s1 => rfl⟩

/-- Modelled from the spec: `succinct.API.ToBinaryLE` (a gnark-gadgets helper
whose source is not under src/) decomposes a circuit value into `n` bits,
least-significant first; a value outside `[0, 2^n)` makes the decomposition
constraints unsatisfiable, modelled as `none`. -/
def ToBinaryLE (value n : Nat) : Option (List Bool) :=
  if value < 2 ^ n then some ((List.range n).map value.testBit) else none

/-- Modelled from the spec: `succinct.API.SelectBytes32` (a gnark-gadgets
helper whose source is not under src/) returns the first digest when the
selector bit is 1 and the second when it is 0. -/
def SelectBytes32 (sel : Bool) (a b : Digest) : Digest :=
  if sel then a else b

/-- Go method `SimpleSerializeAPI.RestoreMerkleRootWithGIndexVariable` (ssz.go lines
49-62): the gindex is decomposed into `len(proof)+1` little-endian bits; at
level `i` both candidate hashes are computed and bit `i` selects between
them.  An unsatisfiable decomposition propagates as `none`. -/
def RestoreMerkleRootWithGIndexVariable (H : List Byte → Digest) (leaf : Digest)
    (proof : List Digest) (gindex : Nat) : Option Digest :=
  (ToBinaryLE gindex (proof.length + 1)).map (fun gindexBits =>
    (List.range proof.length).foldl
      (fun hash i =>
        let p := proof.getD i zeroDigest
        let hash1 := H (dcat p hash)
        let hash2 := H (dcat hash p)
        SelectBytes32 (gindexBits.getD i false) hash1 hash2)
      leaf)

lemma toBinaryLE_getD (g n i : Nat) (hi : i < n) (b : Bool) :
    (((List.range n).map g.testBit).getD i b) = g.testBit i := by
  rw [List.getD_eq_getElem _ _ (by simpa using hi)]
  simp

/-- C2: for a gindex in range for a `len(proof)+1`-bit decomposition, the
variable-gindex reconstruction agrees with the constant-gindex one. -/
theorem restoreMerkleRootVariable_eq_const (H : List Byte → Digest)
    (leaf : Digest) (proof : List Digest) (g : Nat)
    (hg : g < 2 ^ (proof.length + 1)) :
    RestoreMerkleRootWithGIndexVariable H leaf proof g =
      some (RestoreMerkleRoot H leaf proof g) := by
  rw [restoreMerkleRoot_eq_bits]
  unfold RestoreMerkleRootWithGIndexVariable ToBinaryLE
  rw [if_pos hg]
  simp only [Option.map_some']
  congr 1
  unfold restoreMerkleRootBits
  refine List.foldl_ext _ _ _ (fun acc i hi => ?_)
  have hi2 : i < proof.length + 1 := by
    have := List.mem_range.mp hi
    omega
  simp only [SelectBytes32, toBinaryLE_getD g _ i hi2]

/-- Witness for C2 at a concrete input. -/
def hWitness (bs : List Byte) : Digest :=
  Mathlib.Vector.replicate 32 (bs.foldl (fun a b => (a + b) % 256) 1)

theorem restoreMerkleRootVariable_eq_const_witness :
    RestoreMerkleRootWithGIndexVariable hWitness zeroDigest [zeroDigest] 1 =
      some (RestoreMerkleRoot hWitness zeroDigest [zeroDigest] 1) :=
  restoreMerkleRootVariable_eq_const hWitness zeroDigest [zeroDigest] 1
    (by norm_num)

/-- C9: two in-range gindex values agreeing on their low `len(proof)` bits
yield the same digest under the variable-gindex reconstruction: the extra
decomposed bit is never consumed by the traversal loop. -/
theorem restoreMerkleRootVariable_ignores_extra_bit (H : List Byte → Digest)
    (leaf : Digest) (proof : List Digest) (g1 g2 : Nat)
    (h1 : g1 < 2 ^ (proof.length + 1)) (h2 : g2 < 2 ^ (proof.length + 1))
    (hlow : g1 % 2 ^ proof.length = g2 % 2 ^ proof.length) :
    RestoreMerkleRootWithGIndexVariable H leaf proof g1 =
      RestoreMerkleRootWithGIndexVariable H leaf proof g2 := by
  unfold RestoreMerkleRootWithGIndexVariable ToBinaryLE
  rw [if_pos h1, if_pos h2]
  simp only [Option.map_some']
  congr 1
  refine List.foldl_ext _ _ _ (fun acc i hi => ?_)
  have hiL : i < proof.length := List.mem_range.mp hi
  have hbit : g1.testBit i = g2.testBit i := by
    have e1 := Nat.testBit_mod_two_pow g1 proof.length i
    have e2 := Nat.testBit_mod_two_pow g2 proof.length i
    rw [hlow] at e1
    rw [e2] at e1
    simpa [hiL] using e1.symm
  simp only [toBinaryLE_getD g1 (proof.length + 1) i (by omega),
    toBinaryLE_getD g2 (proof.length + 1) i (by omega), hbit]

theorem restoreMerkleRootVariable_ignores_extra_bit_witness :
    RestoreMerkleRootWithGIndexVariable hWitness zeroDigest [zeroDigest] 1 =
      RestoreMerkleRootWithGIndexVariable hWitness zeroDigest [zeroDigest] 3 :=
  restoreMerkleRootVariable_ignores_extra_bit hWitness zeroDigest [zeroDigest]
    1 3 (by norm_num) (by norm_num) (by norm_num)

/-- Go method `SimpleSerializeAPI.VerifyProof` (ssz.go lines 24-34): asserts, for each of
the 32 byte positions, equality between `root` and the root reconstructed by
`RestoreMerkleRoot`.  The conjunction of the 32 `AssertIsEqual` constraints is
satisfiable exactly when this proposition holds. -/
def VerifyProof (H : List Byte → Digest) (root leaf : Digest)
    (proof : List Digest) (gindex : Nat) : Prop :=
  ∀ i : Fin 32, root.get i = (RestoreMerkleRoot H leaf proof gindex).get i

/-- C3: the `VerifyProof` constraints are unsatisfiable exactly when some byte
of `root` differs from the corresponding byte of the reconstructed root;
equivalently, they are satisfiable exactly when the two digests are equal. -/
theorem verifyProof_unsat_iff (H : List Byte → Digest) (root leaf : Digest)
    (proof : List Digest) (gindex : Nat) :
    (¬ VerifyProof H root leaf proof gindex ↔
      ∃ i : Fin 32,
        root.get i ≠ (RestoreMerkleRoot H leaf proof gindex).get i)
    ∧ (VerifyProof H root leaf proof gindex ↔
        root = RestoreMerkleRoot H leaf proof gindex) := by
  constructor
  · simp [VerifyProof]
  · exact ⟨fun h => Mathlib.Vector.ext h, fun h i => by rw [h]⟩

/-- One pass of the inner loop of `SimpleSerializeAPI.HashTreeRoot` (ssz.go
lines 81-95): for `i < nbLeaves/2` the cell `leaves[i]` is overwritten with
`Hash(leaves[2i] || leaves[2i+1])`; all other cells are untouched.  Because
the written index `i` is strictly below the read indices `2i, 2i+1` except
when they coincide before the write, every read of the Go loop sees the
array as it was when the pass started, which is what the map renders. -/
def hashRound (H : List Byte → Digest) (leaves : List Digest) (n : Nat) :
    List Digest :=
  (List.range leaves.length).map (fun i =>
    if i < n / 2 then
      H (dcat (leaves.getD (2 * i) zeroDigest) (leaves.getD (2 * i + 1) zeroDigest))
    else leaves.getD i zeroDigest)

/-- The outer `for nbLeaves > 1` loop of `HashTreeRoot`, returning the final
state of the `leaves` array. -/
def hashTreeRootLoop (H : List Byte → Digest) (leaves : List Digest)
    (n : Nat) : List Digest :=
  if 1 < n then hashTreeRootLoop H (hashRound H leaves n) (n / 2) else leaves
termination_by n
decreasing_by exact Nat.div_lt_self (by omega) (by omega)

/-- Go method `SimpleSerializeAPI.HashTreeRoot` (ssz.go lines 81-95): panics (modelled
as `none`) when `nbLeaves & (nbLeaves-1) != 0`, otherwise runs the pairwise
reduction loop and returns `leaves[0]`.  `nbLeaves` is a leaf count, hence a
natural number (for n ≥ 1 the check coincides bit-for-bit with the Go `int`
computation, and at n = 0 both compute 0 and pass). -/
def HashTreeRoot (H : List Byte → Digest) (leaves : List Digest)
    (nbLeaves : Nat) : Option Digest :=
  if nbLeaves &&& (nbLeaves - 1) ≠ 0 then none
  else some ((hashTreeRootLoop H leaves nbLeaves).getD 0 zeroDigest)

/-- Reference reduction from the spec: hash adjacent pairs of the leaf list. -/
def pairwiseHash (H : List Byte → Digest) : List Digest → List Digest
  | a :: b :: rest => H (dcat a b) :: pairwiseHash H rest
  | l => l

/-- Fuel-indexed pairwise Merkle reduction to a single digest. -/
def treeRootSpecAux (H : List Byte → Digest) : Nat → List Digest → Digest
  | 0, l => l.getD 0 zeroDigest
  | fuel + 1, l =>
      if l.length ≤ 1 then l.getD 0 zeroDigest
      else treeRootSpecAux H fuel (pairwiseHash H l)

/-- Reference Merkle root of a leaf list: repeatedly hash adjacent pairs until
one digest remains. -/
def treeRootSpec (H : List Byte → Digest) (l : List Digest) : Digest :=
  treeRootSpecAux H l.length l

lemma land_double_odd (m : Nat) : (2 * m + 1) &&& (2 * m) = 2 * m := by
  refine Nat.eq_of_testBit_eq (fun i => ?_)
  cases i with
  | zero =>
      rw [Nat.testBit_and]
      simp only [Nat.testBit_zero]
      have h1 : (2 * m + 1) % 2 = 1 := by omega
      have h2 : (2 * m) % 2 = 0 := by omega
      rw [h1, h2]
      simp
  | succ i =>
      rw [Nat.testBit_and]
      simp only [Nat.testBit_succ]
      have h1 : (2 * m + 1) / 2 = m := by omega
      have h2 : (2 * m) / 2 = m := by omega
      rw [h1, h2, Bool.and_self]

lemma land_double_even (m : Nat) (hm : 1 ≤ m) :
    (2 * m) &&& (2 * m - 1) = 2 * (m &&& (m - 1)) := by
  refine Nat.eq_of_testBit_eq (fun i => ?_)
  cases i with
  | zero =>
      rw [Nat.testBit_and]
      simp only [Nat.testBit_zero]
      have h1 : (2 * m) % 2 = 0 := by omega
      have h2 : (2 * (m &&& (m - 1))) % 2 = 0 := by omega
      rw [h1, h2]
      simp
  | succ i =>
      rw [Nat.testBit_and]
      simp only [Nat.testBit_succ]
      have h1 : (2 * m) / 2 = m := by omega
      have h2 : (2 * m - 1) / 2 = m - 1 := by omega
      have h3 : (2 * (m &&& (m - 1))) / 2 = m &&& (m - 1) := by omega
      rw [h1, h2, h3, Nat.testBit_and]

/-- The Go power-of-two check: `n & (n-1) == 0` holds exactly for 0 and the
powers of two. -/
lemma land_pred_eq_zero_iff (n : Nat) :
    n &&& (n - 1) = 0 ↔ (n = 0 ∨ ∃ k, n = 2 ^ k) := by
  induction n using Nat.strong_induction_on with
  | _ n ih =>
      rcases Nat.eq_zero_or_pos n with hn | hn
      · subst hn
        simp
      rcases Nat.even_or_odd n with ⟨m, hm⟩ | ⟨m, hm⟩
      · have hm1 : 1 ≤ m := by omega
        subst hm
        have hrw : m + m = 2 * m := by omega
        rw [hrw, land_double_even m hm1]
        constructor
        · intro h
          have h0 : m &&& (m - 1) = 0 := by omega
          rcases (ih m (by omega)).mp h0 with h | ⟨k, hk⟩
          · omega
          · exact Or.inr ⟨k + 1, by rw [hk]; ring⟩
        · rintro (h | ⟨k, hk⟩)
          · omega
          · rcases k with _ | k
            · omega
            · have hmk : m = 2 ^ k := by
                have : (2 : Nat) ^ (k + 1) = 2 * 2 ^ k := by ring
                omega
              have : m &&& (m - 1) = 0 :=
                (ih m (by omega)).mpr (Or.inr ⟨k, hmk⟩)
              omega
      · subst hm
        have hpred : 2 * m + 1 - 1 = 2 * m := by omega
        rw [hpred, land_double_odd]
        constructor
        · intro h
          exact Or.inr ⟨0, by omega⟩
        · rintro (h | ⟨k, hk⟩)
          · omega
          · rcases k with _ | k
            · omega
            · exfalso
              have : (2 : Nat) ^ (k + 1) = 2 * 2 ^ k := by ring
              omega

lemma pairwiseHash_length (H : List Byte → Digest) :
    ∀ l : List Digest, (pairwiseHash H l).length = (l.length + 1) / 2
  | [] => rfl
  | [_] => by simp [pairwiseHash]
  | a :: b :: rest => by
      have ih := pairwiseHash_length H rest
      simp only [pairwiseHash, List.length_cons, ih]
      omega

lemma pairwiseHash_getD (H : List Byte → Digest) :
    ∀ (l : List Digest) (i : Nat), 2 * i + 1 < l.length →
      (pairwiseHash H l).getD i zeroDigest =
        H (dcat (l.getD (2 * i) zeroDigest) (l.getD (2 * i + 1) zeroDigest))
  | [], i, h => by simp at h
  | [_], i, h => by simp at h
  | a :: b :: rest, 0, _ => rfl
  | a :: b :: rest, i + 1, h => by
      have hrest : 2 * i + 1 < rest.length := by
        simp only [List.length_cons] at h
        omega
      have ih := pairwiseHash_getD H rest i hrest
      have e1 : 2 * (i + 1) = 2 * i + 1 + 1 := by omega
      have e2 : 2 * (i + 1) + 1 = 2 * i + 1 + 1 + 1 := by omega
      simp only [pairwiseHash, e1, e2, List.getD_cons_succ]
      exact ih

lemma treeRootSpecAux_congr (H : List Byte → Digest) :
    ∀ (f1 f2 : Nat) (l : List Digest), l.length ≤ f1 → l.length ≤ f2 →
      treeRootSpecAux H f1 l = treeRootSpecAux H f2 l
  | 0, 0, _, _, _ => rfl
  | 0, _ + 1, l, h1, _ => by
      have hl : l = [] := List.eq_nil_of_length_eq_zero (by omega)
      subst hl
      rfl
  | _ + 1, 0, l, _, h2 => by
      have hl : l = [] := List.eq_nil_of_length_eq_zero (by omega)
      subst hl
      rfl
  | f1 + 1, f2 + 1, l, h1, h2 => by
      by_cases hl : l.length ≤ 1
      · simp [treeRootSpecAux, hl]
      · have hplen : (pairwiseHash H l).length = (l.length + 1) / 2 :=
          pairwiseHash_length H l
        simp only [treeRootSpecAux, if_neg hl]
        exact treeRootSpecAux_congr H f1 f2 (pairwiseHash H l)
          (by omega) (by omega)

lemma treeRootSpec_step (H : List Byte → Digest) (l : List Digest)
    (h : 2 ≤ l.length) :
    treeRootSpec H l = treeRootSpec H (pairwiseHash H l) := by
  unfold treeRootSpec
  obtain ⟨m, hm⟩ : ∃ m, l.length = m + 2 := ⟨l.length - 2, by omega⟩
  have hplen : (pairwiseHash H l).length = (l.length + 1) / 2 :=
    pairwiseHash_length H l
  rw [hm]
  simp only [treeRootSpecAux, if_neg (by omega : ¬ l.length ≤ 1)]
  exact treeRootSpecAux_congr H (m + 1) (pairwiseHash H l).length
    (pairwiseHash H l) (by omega) (by omega)

lemma treeRootSpec_singleton_block (H : List Byte → Digest) (l : List Digest)
    (i : Nat) :
    treeRootSpec H ((l.drop i).take 1) = l.getD i zeroDigest := by
  by_cases h : i < l.length
  · rw [List.take_one_drop_eq_of_lt_length h, List.getD_eq_getElem _ _ h]
    rfl
  · rw [List.drop_eq_nil_of_le (by omega), List.getD_eq_default _ _ (by omega)]
    rfl

lemma hashRound_length (H : List Byte → Digest) (l : List Digest) (n : Nat) :
    (hashRound H l n).length = l.length := by
  simp [hashRound]

lemma hashRound_getElem (H : List Byte → Digest) (l : List Digest) (n i : Nat)
    (h : i < (hashRound H l n).length) :
    (hashRound H l n)[i] =
      if i < n / 2 then
        H (dcat (l.getD (2 * i) zeroDigest) (l.getD (2 * i + 1) zeroDigest))
      else l.getD i zeroDigest := by
  simp [hashRound]

lemma hashRound_getD_lt (H : List Byte → Digest) (l : List Digest) (n i : Nat)
    (h : i < l.length) :
    (hashRound H l n).getD i zeroDigest =
      if i < n / 2 then
        H (dcat (l.getD (2 * i) zeroDigest) (l.getD (2 * i + 1) zeroDigest))
      else l.getD i zeroDigest := by
  rw [List.getD_eq_getElem _ _ (by rw [hashRound_length]; exact h)]
  exact hashRound_getElem H l n i (by rw [hashRound_length]; exact h)

lemma hashRound_getD_ge (H : List Byte → Digest) (l : List Digest) (n i : Nat)
    (h : l.length ≤ i) :
    (hashRound H l n).getD i zeroDigest = l.getD i zeroDigest := by
  rw [List.getD_eq_default _ _ (by rw [hashRound_length]; exact h),
    List.getD_eq_default _ _ h]

lemma hashTreeRootLoop_length (H : List Byte → Digest) :
    ∀ (n : Nat) (l : List Digest),
      (hashTreeRootLoop H l n).length = l.length := by
  intro n
  induction n using Nat.strong_induction_on with
  | _ n ih =>
      intro l
      rw [hashTreeRootLoop]
      by_cases h : 1 < n
      · rw [if_pos h, ih (n / 2) (Nat.div_lt_self (by omega) (by omega)),
          hashRound_length]
      · rw [if_neg h]

lemma hashTreeRootLoop_frame (H : List Byte → Digest) :
    ∀ (n : Nat) (l : List Digest) (i : Nat), n ≤ 2 * i →
      (hashTreeRootLoop H l n).getD i zeroDigest = l.getD i zeroDigest := by
  intro n
  induction n using Nat.strong_induction_on with
  | _ n ih =>
      intro l i hi
      rw [hashTreeRootLoop]
      by_cases h : 1 < n
      · rw [if_pos h,
          ih (n / 2) (Nat.div_lt_self (by omega) (by omega)) _ i (by omega)]
        by_cases hlen : i < l.length
        · rw [hashRound_getD_lt H l n i hlen, if_neg (by omega)]
        · exact hashRound_getD_ge H l n i (by omega)
      · rw [if_neg h]

lemma hashRound_block (H : List Byte → Digest) (l : List Digest)
    (n start size : Nat) (h1 : start + size ≤ n / 2) (h2 : n ≤ l.length) :
    ((hashRound H l n).drop start).take size =
      pairwiseHash H ((l.drop (2 * start)).take (2 * size)) := by
  have hn2 : 2 * (n / 2) ≤ n := by omega
  have hlenL : (((hashRound H l n).drop start).take size).length = size := by
    simp only [List.length_take, List.length_drop, hashRound_length]
    omega
  have hlenX : ((l.drop (2 * start)).take (2 * size)).length = 2 * size := by
    simp only [List.length_take, List.length_drop]
    omega
  refine List.ext_getElem ?_ (fun i hL hR => ?_)
  · rw [hlenL, pairwiseHash_length, hlenX]
    omega
  have hi : i < size := by rw [hlenL] at hL; exact hL
  rw [List.getElem_take, List.getElem_drop,
    hashRound_getElem H l n (start + i)
      (by rw [hashRound_length]; omega),
    if_pos (by omega : start + i < n / 2)]
  have hXb : 2 * i + 1 < ((l.drop (2 * start)).take (2 * size)).length := by
    omega
  have hRHS : (pairwiseHash H ((l.drop (2 * start)).take (2 * size)))[i] =
      (pairwiseHash H ((l.drop (2 * start)).take (2 * size))).getD i
        zeroDigest :=
    (List.getD_eq_getElem _ _ hR).symm
  rw [hRHS, pairwiseHash_getD H _ i hXb]
  have hget : ∀ j : Nat, j < 2 * size →
      ((l.drop (2 * start)).take (2 * size)).getD j zeroDigest =
        l.getD (2 * start + j) zeroDigest := by
    intro j hj
    rw [List.getD_eq_getElem _ _ (by omega), List.getElem_take,
      List.getElem_drop, List.getD_eq_getElem _ _ (by omega)]
  rw [hget (2 * i) (by omega), hget (2 * i + 1) (by omega)]
  have e1 : 2 * (start + i) = 2 * start + 2 * i := by ring
  rw [e1]
  have e2 : 2 * start + 2 * i + 1 = 2 * start + (2 * i + 1) := by omega
  rw [e2]

lemma hashTreeRootLoop_root (H : List Byte → Digest) :
    ∀ (k : Nat) (l : List Digest), 2 ^ k ≤ l.length →
      (hashTreeRootLoop H l (2 ^ k)).getD 0 zeroDigest =
        treeRootSpec H (l.take (2 ^ k)) := by
  intro k
  induction k with
  | zero =>
      intro l hl
      rw [pow_zero] at hl ⊢
      rw [hashTreeRootLoop, if_neg (by omega)]
      have := treeRootSpec_singleton_block H l 0
      rw [List.drop_zero] at this
      exact this.symm
  | succ k ih =>
      intro l hl
      have hdouble : 2 ^ (k + 1) = 2 * 2 ^ k := by ring
      have hpow : (1 : Nat) < 2 ^ (k + 1) := by
        have := Nat.two_pow_pos k
        omega
      rw [hashTreeRootLoop, if_pos hpow]
      have hdiv : 2 ^ (k + 1) / 2 = 2 ^ k := by omega
      rw [hdiv, ih (hashRound H l (2 ^ (k + 1)))
        (by rw [hashRound_length]; omega)]
      have hblock := hashRound_block H l (2 ^ (k + 1)) 0 (2 ^ k)
        (by omega) hl
      rw [List.drop_zero, Nat.mul_zero, List.drop_zero] at hblock
      have h2s : 2 * 2 ^ k = 2 ^ (k + 1) := by ring
      rw [h2s] at hblock
      rw [hblock]
      refine (treeRootSpec_step H (l.take (2 ^ (k + 1))) ?_).symm
      simp only [List.length_take]
      omega

lemma hashTreeRootLoop_block (H : List Byte → Digest) :
    ∀ (k : Nat) (l : List Digest) (t i : Nat), 2 ^ k ≤ l.length →
      1 ≤ t → t ≤ k → 2 ^ (t - 1) ≤ i → i < 2 ^ t →
      (hashTreeRootLoop H l (2 ^ k)).getD i zeroDigest =
        treeRootSpec H
          ((l.drop (i * (2 ^ k / 2 ^ t))).take (2 ^ k / 2 ^ t)) := by
  intro k
  induction k with
  | zero =>
      intro l t i _ h1t htk _ _
      omega
  | succ k ih =>
      intro l t i hlen h1t htk hi1 hi2
      have hdouble : 2 ^ (k + 1) = 2 * 2 ^ k := by ring
      have hpow : (1 : Nat) < 2 ^ (k + 1) := by
        have := Nat.two_pow_pos k
        omega
      rw [hashTreeRootLoop, if_pos hpow]
      have hdiv : 2 ^ (k + 1) / 2 = 2 ^ k := by omega
      rw [hdiv]
      by_cases htk2 : t ≤ k
      · have hs : 2 ^ k / 2 ^ t = 2 ^ (k - t) := Nat.pow_div htk2 (by omega)
        have hs2 : 2 ^ (k + 1) / 2 ^ t = 2 * 2 ^ (k - t) := by
          rw [Nat.pow_div (by omega) (by omega)]
          have he : k + 1 - t = (k - t) + 1 := by omega
          rw [he]
          ring
        have hmul : 2 ^ t * 2 ^ (k - t) = 2 ^ k := by
          rw [← pow_add]
          congr 1
          omega
        have hbound : i * 2 ^ (k - t) + 2 ^ (k - t) ≤ 2 ^ k := by
          have : (i + 1) * 2 ^ (k - t) ≤ 2 ^ t * 2 ^ (k - t) :=
            Nat.mul_le_mul_right _ (by omega)
          calc i * 2 ^ (k - t) + 2 ^ (k - t) = (i + 1) * 2 ^ (k - t) := by
                ring
            _ ≤ 2 ^ t * 2 ^ (k - t) := this
            _ = 2 ^ k := hmul
        rw [ih (hashRound H l (2 ^ (k + 1))) t i
          (by rw [hashRound_length]; omega) h1t htk2 hi1 hi2]
        rw [hs]
        have hblock := hashRound_block H l (2 ^ (k + 1))
          (i * 2 ^ (k - t)) (2 ^ (k - t)) (by omega) (by omega)
        rw [hblock]
        have hX : ((l.drop (2 * (i * 2 ^ (k - t)))).take
            (2 * 2 ^ (k - t))).length = 2 * 2 ^ (k - t) := by
          simp only [List.length_take, List.length_drop]
          omega
        rw [← treeRootSpec_step H _ (by rw [hX]; have := Nat.two_pow_pos (k - t); omega)]
        rw [hs2]
        have e1 : i * (2 * 2 ^ (k - t)) = 2 * (i * 2 ^ (k - t)) := by ring
        rw [e1]
      · have ht : t = k + 1 := by omega
        subst ht
        have hi1b : 2 ^ k ≤ i := by simpa using hi1
        have hfr := hashTreeRootLoop_frame H (2 ^ k)
          (hashRound H l (2 ^ (k + 1))) i (by omega)
        rw [hfr]
        have hself : 2 ^ (k + 1) / 2 ^ (k + 1) = 1 :=
          Nat.div_self (Nat.two_pow_pos (k + 1))
        rw [hself, Nat.mul_one, treeRootSpec_singleton_block H l i]
        by_cases hlt : i < l.length
        · rw [hashRound_getD_lt H l (2 ^ (k + 1)) i hlt,
            if_neg (by omega)]
        · exact hashRound_getD_ge H l (2 ^ (k + 1)) i (by omega)

/-- C6 counterexample: `nbLeaves = 0` is not a power of two, yet
`HashTreeRoot` does not panic there: the Go check `n & (n-1) != 0` passes at
0 and the call returns `leaves[0]` untouched. -/
theorem hashTreeRoot_zero_not_power_no_panic :
    (¬ ∃ k : Nat, (0 : Nat) = 2 ^ k) ∧
      HashTreeRoot hWitness [zeroDigest] 0 = some zeroDigest := by
  constructor
  · rintro ⟨k, hk⟩
    have := Nat.two_pow_pos k
    omega
  · rw [HashTreeRoot, if_neg (by decide), hashTreeRootLoop,
      if_neg (by omega)]
    rfl

/-- C6 (amended): for every nonzero `nbLeaves` that is not a power of two,
`HashTreeRoot` panics before reducing any leaves; for every power-of-two
`nbLeaves` (with at least that many leaves) it performs the pairwise
reduction, halving until one digest remains, and returns that digest. -/
theorem hashTreeRoot_power_check (H : List Byte → Digest)
    (leaves : List Digest) (n : Nat) :
    (n ≠ 0 → (¬ ∃ k, n = 2 ^ k) → HashTreeRoot H leaves n = none) ∧
    (∀ k, n = 2 ^ k → n ≤ leaves.length →
      HashTreeRoot H leaves n = some (treeRootSpec H (leaves.take n))) := by
  constructor
  · intro h0 hnp
    rw [HashTreeRoot, if_pos]
    intro hzero
    rcases (land_pred_eq_zero_iff n).mp hzero with h | h
    · exact h0 h
    · exact hnp h
  · intro k hk hlen
    subst hk
    rw [HashTreeRoot, if_neg (by
      simp only [ne_eq, not_not]
      exact (land_pred_eq_zero_iff (2 ^ k)).mpr (Or.inr ⟨k, rfl⟩))]
    rw [hashTreeRootLoop_root H k leaves hlen]

theorem hashTreeRoot_power_check_witness :
    HashTreeRoot hWitness [zeroDigest] 3 = none ∧
    HashTreeRoot hWitness [zeroDigest, zeroDigest] 2 =
      some (treeRootSpec hWitness ([zeroDigest, zeroDigest].take 2)) := by
  constructor
  · refine (hashTreeRoot_power_check hWitness [zeroDigest] 3).1
      (by omega) ?_
    rintro ⟨k, hk⟩
    rcases k with _ | _ | k
    · omega
    · omega
    · have h4 : 2 ^ (k + 2) = 4 * 2 ^ k := by ring
      have := Nat.two_pow_pos k
      omega
  · exact (hashTreeRoot_power_check hWitness [zeroDigest, zeroDigest] 2).2
      1 (by norm_num) (by norm_num)

/-- C10: `HashTreeRoot` mutates the `leaves` array in place.  For a
power-of-two count `n = 2^k`, `k ≥ 1`, after the call: the returned root is
the final `leaves[0]`; the array keeps its length; cells from `n/2` on are
untouched; and every cell `i` with `2^(t-1) ≤ i < 2^t` (for `1 ≤ t ≤ k`)
holds the intermediate pairwise-hash reduction of the original block of
`n / 2^t` leaves starting at `i * (n / 2^t)` — in particular every cell
below `n/2` has been overwritten with an intermediate hash. -/
theorem hashTreeRoot_mutates_in_place (H : List Byte → Digest)
    (l : List Digest) (k : Nat) (_hk : 1 ≤ k) (hlen : 2 ^ k ≤ l.length) :
    HashTreeRoot H l (2 ^ k) =
      some ((hashTreeRootLoop H l (2 ^ k)).getD 0 zeroDigest) ∧
    (hashTreeRootLoop H l (2 ^ k)).length = l.length ∧
    (hashTreeRootLoop H l (2 ^ k)).getD 0 zeroDigest =
      treeRootSpec H (l.take (2 ^ k)) ∧
    (∀ i, 2 ^ k ≤ 2 * i →
      (hashTreeRootLoop H l (2 ^ k)).getD i zeroDigest =
        l.getD i zeroDigest) ∧
    (∀ t i, 1 ≤ t → t ≤ k → 2 ^ (t - 1) ≤ i → i < 2 ^ t →
      (hashTreeRootLoop H l (2 ^ k)).getD i zeroDigest =
        treeRootSpec H
          ((l.drop (i * (2 ^ k / 2 ^ t))).take (2 ^ k / 2 ^ t))) := by
  refine ⟨?_, hashTreeRootLoop_length H (2 ^ k) l,
    hashTreeRootLoop_root H k l hlen,
    fun i hi => hashTreeRootLoop_frame H (2 ^ k) l i hi,
    fun t i h1 h2 h3 h4 =>
      hashTreeRootLoop_block H k l t i hlen h1 h2 h3 h4⟩
  rw [HashTreeRoot, if_neg (by
    simp only [ne_eq, not_not]
    exact (land_pred_eq_zero_iff (2 ^ k)).mpr (Or.inr ⟨k, rfl⟩))]

theorem hashTreeRoot_mutates_in_place_witness :
    HashTreeRoot hWitness [zeroDigest, zeroDigest] (2 ^ 1) =
      some ((hashTreeRootLoop hWitness [zeroDigest, zeroDigest]
        (2 ^ 1)).getD 0 zeroDigest) ∧
    (hashTreeRootLoop hWitness [zeroDigest, zeroDigest] (2 ^ 1)).length =
      [zeroDigest, zeroDigest].length ∧
    (hashTreeRootLoop hWitness [zeroDigest, zeroDigest] (2 ^ 1)).getD 0
        zeroDigest =
      treeRootSpec hWitness ([zeroDigest, zeroDigest].take (2 ^ 1)) ∧
    (∀ i, 2 ^ 1 ≤ 2 * i →
      (hashTreeRootLoop hWitness [zeroDigest, zeroDigest] (2 ^ 1)).getD i
          zeroDigest =
        [zeroDigest, zeroDigest].getD i zeroDigest) ∧
    (∀ t i, 1 ≤ t → t ≤ 1 → 2 ^ (t - 1) ≤ i → i < 2 ^ t →
      (hashTreeRootLoop hWitness [zeroDigest, zeroDigest] (2 ^ 1)).getD i
          zeroDigest =
        treeRootSpec hWitness
          (([zeroDigest, zeroDigest].drop (i * (2 ^ 1 / 2 ^ t))).take
            (2 ^ 1 / 2 ^ t))) :=
  hashTreeRoot_mutates_in_place hWitness [zeroDigest, zeroDigest] 1
    (by omega) (by norm_num)

/-! ## The circuit-function contract (`gnarkx/succinct/circuit.go`)

The embedded user circuit is the interface `Circuit` with operations
`SetWitness`, `Define`, `GetInputBytes`, `GetOutputBytes`.  For the claims
below an embedded circuit is determined by the output bytes its `SetWitness`
computes from the input bytes (`compute`) and by the error its `Define`
reports (`defineResult`); the sha256 collaborator is abstracted as a function
`sha` from byte lists to 256-bit digest values. -/

/-- The embedded `Circuit` interface, by its claim-relevant behaviour. -/
structure Circuit where
  compute : List Byte → List Byte
  defineResult : Except String Unit

/-- Modelled from the spec: `sha256utils.HashAndTruncate` (not under src/)
computes the sha256 digest of the bytes, interpreted as an integer, and keeps
its low `numBits` bits (`hash && ((1 << numBits) - 1)`, i.e. reduction
mod `2^numBits`). -/
def HashAndTruncate (sha : List Byte → Nat) (b : List Byte) (numBits : Nat) :
    Nat :=
  sha b % 2 ^ numBits

/-- The witness assignment produced by `CircuitFunction.SetWitness`:
the embedded circuit's input-byte wires, its output-byte wires, and the two
public hash wires. -/
structure FunctionAssignment where
  inputBytes : List Byte
  outputBytes : List Byte
  inputHash : Nat
  outputHash : Nat

/-- Go method `CircuitFunction.SetWitness` (circuit.go lines 59-78): sets the embedded
circuit's input-byte wires from `inputBytes`, delegates witness-setting to
the embedded circuit (after which its output bytes are determined), then
assigns `InputHash = HashAndTruncate(inputBytes, 253)` and
`OutputHash = HashAndTruncate(outputBytes, 253)`. -/
def CircuitFunctionSetWitness (sha : List Byte → Nat) (c : Circuit)
    (inputBytes : List Byte) : FunctionAssignment :=
  let inputWires := inputBytes
  let outputBytes := c.compute inputBytes
  let inputHash := HashAndTruncate sha inputBytes 253
  let outputHash := HashAndTruncate sha outputBytes 253
  ⟨inputWires, outputBytes, inputHash, outputHash⟩

/-- C4: `SetWitness` assigns the embedded circuit's input wires from
`inputBytes`, delegates to the embedded circuit, and assigns the public
wires `InputHash = Truncate(Hash(inputBytes), 253)` and
`OutputHash = Truncate(Hash(outputBytes), 253)`, the output bytes being the
ones the embedded circuit computed from `inputBytes`. -/
theorem circuitFunctionSetWitness_spec (sha : List Byte → Nat) (c : Circuit)
    (inputBytes : List Byte) :
    (CircuitFunctionSetWitness sha c inputBytes).inputBytes = inputBytes ∧
    (CircuitFunctionSetWitness sha c inputBytes).outputBytes =
      c.compute inputBytes ∧
    (CircuitFunctionSetWitness sha c inputBytes).inputHash =
      sha inputBytes % 2 ^ 253 ∧
    (CircuitFunctionSetWitness sha c inputBytes).outputHash =
      sha (c.compute inputBytes) % 2 ^ 253 :=
  ⟨rfl, rfl, rfl, rfl⟩

/-- Go method `CircuitFunction.Define` (circuit.go lines 82-94): the source calls
`f.Circuit.Define(baseApi)` and DISCARDS its returned error, then adds the
hash-binding constraints and returns `nil`; so this function reports success
regardless of the embedded circuit's result. -/
def CircuitFunctionDefine (c : Circuit) : Except String Unit :=
  let _ := c.defineResult
  Except.ok ()

/-- External collaborator `frontend.Compile`: runs the circuit's `Define`
and fails with exactly the error `Define` reports, if any. -/
def frontendCompile (defineResult : Except String Unit) :
    Except String Unit :=
  defineResult

/-- Go method `CircuitFunction.Build` (circuit.go lines 97-113): compiles the circuit
function (propagating a compile error) and then performs key generation
(`groth16.Setup`, an external collaborator whose outcome is the `setup`
argument), returning a `CircuitBuild` on success. -/
def CircuitFunctionBuild (c : Circuit) (setup : Except String Unit) :
    Except String Unit :=
  match frontendCompile (CircuitFunctionDefine c) with
  | Except.error e => Except.error e
  | Except.ok () =>
      match setup with
      | Except.error e => Except.error e
      | Except.ok () => Except.ok ()

/-- C5 (code bug): an embedded circuit whose `Define` reports an error does
NOT prevent `Build` from succeeding — `CircuitFunction.Define` drops the
embedded error on the floor (`f.Circuit.Define(baseApi)` without checking the
returned error) and returns `nil`, so compilation and `Build` succeed. -/
theorem circuitFunctionBuild_ignores_embedded_define_error :
    CircuitFunctionDefine ⟨id, Except.error "embedded define failed"⟩ =
      Except.ok () ∧
    CircuitFunctionBuild ⟨id, Except.error "embedded define failed"⟩
      (Except.ok ()) = Except.ok () :=
  ⟨rfl, rfl⟩

/-- The fixed proof shape of `types.Groth16Proof`: three curve points (the
middle one over a degree-2 extension, hence four coordinates) plus the two
public hash digests. -/
structure Groth16Proof where
  A : Nat × Nat
  B : (Nat × Nat) × (Nat × Nat)
  C : Nat × Nat
  InputHash : List Byte
  OutputHash : List Byte

/-- Go function `big.Int.SetBytes`: interpret a byte slice as a big-endian unsigned
integer. -/
def bytesBE (l : List Byte) : Nat :=
  l.foldl (fun acc b => 256 * acc + b) 0

/-- Go function `big.Int.FillBytes` into a 32-byte buffer: the 32-byte big-endian
encoding of the value (which, for the truncated hashes, always fits). -/
def natToBytes32 (x : Nat) : List Byte :=
  (List.range 32).map (fun i => x / 256 ^ (31 - i) % 256)

/-- Go method `CircuitFunction.Prove` (circuit.go lines 246-268), after the external
proving protocol has produced the raw serialized proof `proofBytes`
(`proof.WriteRawTo`): the witness is re-derived via `SetWitness`, the eight
proof coordinates are read from consecutive 32-byte windows of `proofBytes`
(`fpSize = 4*8 = 32`), and the two hash digests are read back from the
assigned public wires. -/
def CircuitFunctionProve (sha : List Byte → Nat) (c : Circuit)
    (inputBytes proofBytes : List Byte) : Groth16Proof :=
  let w := CircuitFunctionSetWitness sha c inputBytes
  let fpSize : Nat := 4 * 8
  let seg := fun k => (proofBytes.drop (fpSize * k)).take fpSize
  { A := (bytesBE (seg 0), bytesBE (seg 1))
    B := ((bytesBE (seg 2), bytesBE (seg 3)),
          (bytesBE (seg 4), bytesBE (seg 5)))
    C := (bytesBE (seg 6), bytesBE (seg 7))
    InputHash := natToBytes32 w.inputHash
    OutputHash := natToBytes32 w.outputHash }

/-- C7: the proof returned by `Prove` consists of exactly the 8 big-endian
integers read from the fixed consecutive 32-byte windows of the raw proof
serialization, in the order `A[0], A[1], B[0][0], B[0][1], B[1][0], B[1][1],
C[0], C[1]`, followed by the 32-byte `InputHash` and `OutputHash` digests
taken directly from the public wires assigned by `SetWitness`. -/
theorem circuitFunctionProve_layout (sha : List Byte → Nat) (c : Circuit)
    (inputBytes proofBytes : List Byte) :
    [(CircuitFunctionProve sha c inputBytes proofBytes).A.1,
     (CircuitFunctionProve sha c inputBytes proofBytes).A.2,
     (CircuitFunctionProve sha c inputBytes proofBytes).B.1.1,
     (CircuitFunctionProve sha c inputBytes proofBytes).B.1.2,
     (CircuitFunctionProve sha c inputBytes proofBytes).B.2.1,
     (CircuitFunctionProve sha c inputBytes proofBytes).B.2.2,
     (CircuitFunctionProve sha c inputBytes proofBytes).C.1,
     (CircuitFunctionProve sha c inputBytes proofBytes).C.2] =
      (List.range 8).map
        (fun k => bytesBE ((proofBytes.drop (32 * k)).take 32)) ∧
    (CircuitFunctionProve sha c inputBytes proofBytes).InputHash =
      natToBytes32
        ((CircuitFunctionSetWitness sha c inputBytes).inputHash) ∧
    (CircuitFunctionProve sha c inputBytes proofBytes).OutputHash =
      natToBytes32
        ((CircuitFunctionSetWitness sha c inputBytes).outputHash) := by
  refine ⟨?_, rfl, rfl⟩
  simp [CircuitFunctionProve, List.range_succ]

/-! ## Artifact export and import (`circuit.go` lines 121-223)

`CircuitBuild.Export` performs a fixed sequence of filesystem steps (make the
build directory; create and write `r1cs.bin`, `pkey.bin`, `vkey.bin`; create
and render `FunctionVerifier.sol`).  Each step may fail; the environment
below records the outcome the filesystem gives each step (`none` = success,
`some e` = the error text).  On a failure the Go code prints a message to
standard output and returns early; the function's signature returns nothing,
so no error ever reaches the caller. -/

/-- Outcomes the filesystem gives each of `Export`'s sequential steps. -/
structure ExportEnv where
  mkdirErr : Option String
  createR1csErr : Option String
  writeR1csErr : Option String
  createPkErr : Option String
  writePkErr : Option String
  createVkErr : Option String
  writeVkErr : Option String
  createSolErr : Option String
  exportSolErr : Option String

/-- What a run of `Export` leaves behind: the messages printed to standard
output and the artifact files successfully written. -/
structure ExportOutcome where
  printed : List String
  written : List String
  returnedError : Option String

/-- The printed messages and written artifacts of `CircuitBuild.Export`
(circuit.go lines 121-187), step by step as in the source. -/
def exportSteps (env : ExportEnv) : List String × List String :=
  match env.mkdirErr with
  | some e => (["Failed to create directory: " ++ e], [])
  | none =>
  match env.createR1csErr with
  | some e => (["Failed to create file: " ++ e], [])
  | none =>
  match env.writeR1csErr with
  | some e => (["Failed to write data: " ++ e], [])
  | none =>
  match env.createPkErr with
  | some e => (["Failed to create file: " ++ e], ["build/r1cs.bin"])
  | none =>
  match env.writePkErr with
  | some e => (["Failed to write data: " ++ e], ["build/r1cs.bin"])
  | none =>
  match env.createVkErr with
  | some e =>
      (["Failed to create file: " ++ e], ["build/r1cs.bin", "build/pkey.bin"])
  | none =>
  match env.writeVkErr with
  | some e =>
      (["Failed to write data: " ++ e], ["build/r1cs.bin", "build/pkey.bin"])
  | none =>
  match env.createSolErr with
  | some e =>
      (["Failed to create file: " ++ e],
        ["build/r1cs.bin", "build/pkey.bin", "build/vkey.bin"])
  | none =>
  match env.exportSolErr with
  | some e =>
      (["Failed to export solidity verifier: " ++ e],
        ["build/r1cs.bin", "build/pkey.bin", "build/vkey.bin"])
  | none =>
      ([],
        ["build/r1cs.bin", "build/pkey.bin", "build/vkey.bin",
          "build/FunctionVerifier.sol"])

/-- Go method `CircuitBuild.Export`: the function has no return value, so the error
channel back to the caller is empty (`none`) on every path; failures are
only printed. -/
def CircuitBuildExport (env : ExportEnv) : ExportOutcome :=
  ⟨(exportSteps env).1, (exportSteps env).2, none⟩

/-- The `CircuitBuild` assembled by `ImportCircuitBuild`: the artifacts read
back from storage (artifact payloads are opaque, modelled as `Nat`). -/
structure CircuitBuildArtifacts where
  pk : Option Nat
  vk : Option Nat
  r1cs : Option Nat

/-- Outcomes the filesystem gives each of `ImportCircuitBuild`'s steps. -/
structure ImportEnv where
  openPk : Except String Unit
  readPk : Except String Nat
  openR1cs : Except String Unit
  readR1cs : Except String Nat

/-- Go function `ImportCircuitBuild` (circuit.go lines 189-223): opens and reads the
proving key, then opens and reads the constraint system, wrapping each
failure; on success the verifying key field is left unset. -/
def ImportCircuitBuild (env : ImportEnv) :
    Except String CircuitBuildArtifacts :=
  match env.openPk with
  | Except.error e => Except.error ("failed to open file: " ++ e)
  | Except.ok () =>
  match env.readPk with
  | Except.error e => Except.error ("failed to read data: " ++ e)
  | Except.ok pk =>
  match env.openR1cs with
  | Except.error e => Except.error ("failed to open file: " ++ e)
  | Except.ok () =>
  match env.readR1cs with
  | Except.error e => Except.error ("failed to read data: " ++ e)
  | Except.ok cs => Except.ok ⟨some pk, none, some cs⟩

/-- C8 counterexample: when creating `build/r1cs.bin` fails during export,
the failure is only printed to standard output — the caller receives no
error value at all (the Go `Export` returns nothing), refuting the claim
that every export-side artifact I/O failure is reported to the caller as a
wrapped error. -/
theorem circuitBuildExport_failure_not_returned :
    CircuitBuildExport
        ⟨none, some "disk full", none, none, none, none, none, none, none⟩ =
      ⟨["Failed to create file: disk full"], [], none⟩ :=
  rfl

/-- C8 (amended): `Export` reports artifact I/O failures only by printing a
message and returning early, never through an error value to the caller
(shown here for a proving-key write failure, which also aborts the
remaining writes); `ImportCircuitBuild` reports failures as wrapped errors
(`failed to open file` / `failed to read data`), and on success reads back
exactly the constraint system and the proving key, leaving the verifying
key unset. -/
theorem export_import_error_reporting :
    (∀ env : ExportEnv, (CircuitBuildExport env).returnedError = none) ∧
    (∀ (env : ExportEnv) (e : String), env.mkdirErr = none →
      env.createR1csErr = none → env.writeR1csErr = none →
      env.createPkErr = none → env.writePkErr = some e →
      CircuitBuildExport env =
        ⟨["Failed to write data: " ++ e], ["build/r1cs.bin"], none⟩) ∧
    (∀ (env : ImportEnv) (e : String), env.openPk = Except.error e →
      ImportCircuitBuild env =
        Except.error ("failed to open file: " ++ e)) ∧
    (∀ (env : ImportEnv) (e : String), env.openPk = Except.ok () →
      env.readPk = Except.error e →
      ImportCircuitBuild env =
        Except.error ("failed to read data: " ++ e)) ∧
    (∀ (env : ImportEnv) (p cs : Nat), env.openPk = Except.ok () →
      env.readPk = Except.ok p → env.openR1cs = Except.ok () →
      env.readR1cs = Except.ok cs →
      ImportCircuitBuild env = Except.ok ⟨some p, none, some cs⟩) := by
  refine ⟨fun env => rfl, ?_, ?_, ?_, ?_⟩
  · intro env e h1 h2 h3 h4 h5
    unfold CircuitBuildExport exportSteps
    rw [h1, h2, h3, h4, h5]
  · intro env e h1
    unfold ImportCircuitBuild
    rw [h1]
  · intro env e h1 h2
    unfold ImportCircuitBuild
    rw [h1, h2]
  · intro env p cs h1 h2 h3 h4
    unfold ImportCircuitBuild
    rw [h1, h2, h3, h4]

theorem export_import_error_reporting_witness :
    CircuitBuildExport
        ⟨none, none, none, none, some "pk io", none, none, none, none⟩ =
      ⟨["Failed to write data: " ++ "pk io"], ["build/r1cs.bin"], none⟩ ∧
    ImportCircuitBuild
        ⟨Except.error "no pkey.bin", Except.ok 0, Except.ok (), Except.ok 0⟩ =
      Except.error ("failed to open file: " ++ "no pkey.bin") ∧
    ImportCircuitBuild
        ⟨Except.ok (), Except.ok 7, Except.ok (), Except.ok 9⟩ =
      Except.ok ⟨some 7, none, some 9⟩ :=
  ⟨export_import_error_reporting.2.1 _ "pk io" rfl rfl rfl rfl rfl,
   export_import_error_reporting.2.2.1 _ "no pkey.bin" rfl,
   export_import_error_reporting.2.2.2.2 _ 7 9 rfl rfl rfl rfl⟩

end SuccinctX
